import Mathlib

/-!
Shallow embedding of the ByteTree serialization writer
(`include/swift/Basic/ByteTreeSerialization.h`).

The writer emits a versioned binary tree format into an append-only byte
sink. We model the validating build: every `assert` in the source becomes
an explicit error constructor, and the monadic short-circuit models the
fatal abort. The sink (`llvm::BinaryStreamWriter` over an appending
stream) is modelled as a byte list plus an optional capacity; a write
that would exceed the capacity fails, mirroring a sink I/O failure
(`llvm::Error`).
-/

namespace ByteTree

/-- The constant `UINT_MAX`, the sentinel value for an unset `NumFields`. -/
def UINT_MAX : Nat := 4294967295

/-- Truncation to `uint32_t` / `unsigned`. -/
def asU32 (n : Nat) : Nat := n % 4294967296

/-- Little-endian byte encoding of `v` in `w` bytes, as
`llvm::BinaryStreamWriter::writeInteger` produces for a `w`-byte
unsigned integer (the stream is configured little-endian). -/
def toLE : Nat → Nat → List Nat
  | 0, _ => []
  | w + 1, v => v % 256 :: toLE w (v / 256)

/-- The abstract append-only byte sink wrapped by
`llvm::BinaryStreamWriter`: the bytes written so far plus an optional
backing-storage capacity. `cap = none` is a sink whose writes never
fail. -/
structure StreamWriter where
  bytes : List Nat
  cap : Option Nat
deriving Repr, DecidableEq

/-- Models `llvm::BinaryStreamWriter::getOffset`. -/
def StreamWriter.getOffset (sw : StreamWriter) : Nat := sw.bytes.length

/-- Append raw bytes to the sink; fails (an `llvm::Error`) when the
backing storage capacity would be exceeded. -/
def StreamWriter.writeBytes (sw : StreamWriter) (bs : List Nat) :
    Except Unit StreamWriter :=
  match sw.cap with
  | none => Except.ok { sw with bytes := sw.bytes ++ bs }
  | some c =>
    if sw.bytes.length + bs.length ≤ c then
      Except.ok { sw with bytes := sw.bytes ++ bs }
    else
      Except.error ()

/-- Models `llvm::BinaryStreamWriter::writeInteger` for a `w`-byte unsigned
integer. -/
def StreamWriter.writeInteger (sw : StreamWriter) (w v : Nat) :
    Except Unit StreamWriter :=
  sw.writeBytes (toLE w v)

/-- One error constructor per `assert` in the source (the validating
build aborts there), plus `sink` for the `assert(!Error)` sites where
the underlying cause is a failed sink write. -/
inductive Err where
  /-- The assert `NumFields != UINT_MAX` in `setNumFields`: the argument
  collides with the unset sentinel. -/
  | numFieldsIsSentinel
  /-- The assert `this->NumFields == UINT_MAX` in `setNumFields`:
  `NumFields` has already been set. -/
  | numFieldsAlreadySet
  /-- The assert `NumFields != UINT_MAX` in `validateAndIncreaseFieldIndex`:
  `setNumFields` must be called before writing any value. -/
  | numFieldsNotSet
  /-- The assert `Index == CurrentFieldIndex`: writing index out of order. -/
  | indexOutOfOrder
  /-- The assert `Index < NumFields`: writing more fields than the object
  is expected to have. -/
  | tooManyFields
  /-- The assert `StreamWriter.getOffset() - StartOffset == ValueSize`:
  number of written bytes does not match `ScalarTraits<T>::size`. -/
  | scalarSizeMismatch
  /-- The assert `CurrentFieldIndex == LengthBeforeWrite + 1`:
  `WrapperTypeTraits` did not call `ByteTreeWriter.write` exactly once. -/
  | wrapperDidNotWriteOnce
  /-- The assert `CurrentFieldIndex == NumFields` in the destructor: the
  object had more or fewer elements than specified. -/
  | objectFieldCountMismatch
  /-- An `assert(!Error)` fired because a sink write failed. -/
  | sink
deriving Repr, DecidableEq

/-- The mutable fields of `ByteTreeWriter`: the declared field count
(`UINT_MAX` until set) and the index of the next field to write. -/
structure ByteTreeWriter where
  NumFields : Nat := UINT_MAX
  CurrentFieldIndex : Nat := 0
deriving Repr, DecidableEq

/-- A `ByteTreeWriter` together with the shared sink it writes to. -/
structure WriterState where
  writer : ByteTreeWriter
  stream : StreamWriter
deriving Repr, DecidableEq

/-- Models `ByteTreeWriter::setNumFields`: asserts the argument is not the
sentinel and that the count was not already set, then emits the count
as a 4-byte integer and records it. -/
def setNumFields (NumFields : Nat) (s : WriterState) :
    Except Err WriterState :=
  if NumFields = UINT_MAX then
    Except.error Err.numFieldsIsSentinel
  else if s.writer.NumFields ≠ UINT_MAX then
    Except.error Err.numFieldsAlreadySet
  else
    match s.stream.writeInteger 4 NumFields with
    | Except.error _ => Except.error Err.sink
    | Except.ok sw =>
      Except.ok ⟨{ s.writer with NumFields := NumFields }, sw⟩

/-- Models `ByteTreeWriter::validateAndIncreaseFieldIndex`: the field count
must have been set, `Index` must be the next expected index and must be
below the field count; on success the expected index advances. -/
def validateAndIncreaseFieldIndex (Index : Nat) (w : ByteTreeWriter) :
    Except Err ByteTreeWriter :=
  if w.NumFields = UINT_MAX then
    Except.error Err.numFieldsNotSet
  else if Index ≠ w.CurrentFieldIndex then
    Except.error Err.indexOutOfOrder
  else if ¬ Index < w.NumFields then
    Except.error Err.tooManyFields
  else
    Except.ok { w with CurrentFieldIndex := w.CurrentFieldIndex + 1 }

/-- Models the destructor `~ByteTreeWriter`: on discard, the number of fields
written must equal the declared count. -/
def dtor (w : ByteTreeWriter) : Except Err Unit :=
  if w.CurrentFieldIndex = w.NumFields then
    Except.ok ()
  else
    Except.error Err.objectFieldCountMismatch

mutual
/-- The serializable values the header ships trait implementations for:
the scalar codecs (`ScalarTraits` for `uint8_t`, `uint16_t`, `uint32_t`,
`llvm::StringRef`, `llvm::NoneType`), the boolean wrapper
(`WrapperTypeTraits<bool>`), and composite objects (`ObjectTraits`:
an ordered list of fields, each written at its position). -/
inductive Value where
  | u8 : Nat → Value
  | u16 : Nat → Value
  | u32v : Nat → Value
  | str : List Nat → Value
  | noneV : Value
  | boolV : Bool → Value
  | obj : ValueList → Value
inductive ValueList where
  | nil : ValueList
  | cons : Value → ValueList → ValueList
end

/-- Number of direct fields of an object value. -/
def ValueList.length : ValueList → Nat
  | .nil => 0
  | .cons _ rest => rest.length + 1

/-- Models `ObjectTraits<T>::numFields` for the generic object value: the
number of fields, as the C++ `unsigned` return value. -/
def ObjectTraits.numFields (fs : ValueList) : Nat := asU32 fs.length

namespace ScalarTraits

/-- Models `ScalarTraits<uint8_t>::size`. -/
def sizeU8 (_Value : Nat) : Nat := 1

/-- Models `ScalarTraits<uint8_t>::write`: the bytes `writeInteger` appends. -/
def writeU8 (Value : Nat) : List Nat := toLE 1 Value

/-- Models `ScalarTraits<uint16_t>::size`. -/
def sizeU16 (_Value : Nat) : Nat := 2

/-- Models `ScalarTraits<uint16_t>::write`: the bytes `writeInteger` appends. -/
def writeU16 (Value : Nat) : List Nat := toLE 2 Value

/-- Models `ScalarTraits<uint32_t>::size`. -/
def sizeU32 (_Value : Nat) : Nat := 4

/-- Models `ScalarTraits<uint32_t>::write`: the bytes `writeInteger` appends. -/
def writeU32 (Value : Nat) : List Nat := toLE 4 Value

/-- Models `ScalarTraits<llvm::StringRef>::size`: `Str.size()` truncated to
`unsigned`. -/
def sizeString (Str : List Nat) : Nat := asU32 Str.length

/-- Models `ScalarTraits<llvm::StringRef>::write`: `writeFixedString` appends
the raw bytes, no terminator. -/
def writeString (Str : List Nat) : List Nat := Str

/-- Models `ScalarTraits<llvm::NoneType>::size`: `llvm::None` has length 0. -/
def sizeNone : Nat := 0

/-- Models `ScalarTraits<llvm::NoneType>::write`: nothing to write. -/
def writeNone : List Nat := []

end ScalarTraits

/-- The scalar overload `ByteTreeWriter::write(const T &, unsigned)`,
generic over what `ScalarTraits<T>` supplies: the declared `size` and
the `content` bytes its `write` appends to the sink. Validates the
index, emits the size as a 4-byte integer (asserting the sink write
succeeded), lets the trait write the content (asserting the sink write
succeeded), and asserts the offset advanced by exactly the declared
size. -/
def writeScalarWith (size : Nat) (content : List Nat) (Index : Nat)
    (s : WriterState) : Except Err WriterState :=
  match validateAndIncreaseFieldIndex Index s.writer with
  | Except.error e => Except.error e
  | Except.ok w =>
    match s.stream.writeInteger 4 (asU32 size) with
    | Except.error _ => Except.error Err.sink
    | Except.ok sw =>
      match sw.writeBytes content with
      | Except.error _ => Except.error Err.sink
      | Except.ok sw2 =>
        if sw2.getOffset - sw.getOffset = asU32 size then
          Except.ok ⟨w, sw2⟩
        else
          Except.error Err.scalarSizeMismatch

/-- The wrapper overload `ByteTreeWriter::write(const T &, unsigned)`,
generic over the conversion `WrapperTypeTraits<T>::write` (which
receives the writer and the index): records `CurrentFieldIndex` before
the call and asserts it advanced by exactly one afterwards. -/
def writeWrapperWith
    (traitWrite : Nat → WriterState → Except Err WriterState)
    (Index : Nat) (s : WriterState) : Except Err WriterState :=
  match traitWrite Index s with
  | Except.error e => Except.error e
  | Except.ok s2 =>
    if s2.writer.CurrentFieldIndex = s.writer.CurrentFieldIndex + 1 then
      Except.ok s2
    else
      Except.error Err.wrapperDidNotWriteOnce

mutual
/-- Member overload resolution of `ByteTreeWriter::write(Value, Index)`
on the built-in traits. Scalars go through the scalar overload with
their `ScalarTraits`. `bool` goes through the wrapper overload, whose
trait writes `static_cast<uint8_t>(Value)` at the same index. An object
goes through the object overload: validate the index, construct a child
writer on the same stream, `setNumFields` from `ObjectTraits::numFields`,
let `ObjectTraits::write` emit the fields in order, and discard the
child (running its destructor check). -/
def writeField : Value → Nat → WriterState → Except Err WriterState
  | .u8 v, Index, s =>
    writeScalarWith (ScalarTraits.sizeU8 v) (ScalarTraits.writeU8 v)
      Index s
  | .u16 v, Index, s =>
    writeScalarWith (ScalarTraits.sizeU16 v) (ScalarTraits.writeU16 v)
      Index s
  | .u32v v, Index, s =>
    writeScalarWith (ScalarTraits.sizeU32 v) (ScalarTraits.writeU32 v)
      Index s
  | .str t, Index, s =>
    writeScalarWith (ScalarTraits.sizeString t) (ScalarTraits.writeString t)
      Index s
  | .noneV, Index, s =>
    writeScalarWith ScalarTraits.sizeNone ScalarTraits.writeNone Index s
  | .boolV b, Index, s =>
    writeWrapperWith
      (fun i t =>
        writeScalarWith (ScalarTraits.sizeU8 (if b then 1 else 0))
          (ScalarTraits.writeU8 (if b then 1 else 0)) i t)
      Index s
  | .obj fs, Index, s =>
    match validateAndIncreaseFieldIndex Index s.writer with
    | Except.error e => Except.error e
    | Except.ok w =>
      match setNumFields (ObjectTraits.numFields fs) ⟨{}, s.stream⟩ with
      | Except.error e => Except.error e
      | Except.ok c1 =>
        match writeFields fs 0 c1 with
        | Except.error e => Except.error e
        | Except.ok c2 =>
          match dtor c2.writer with
          | Except.error e => Except.error e
          | Except.ok _ => Except.ok ⟨w, c2.stream⟩
def writeFields : ValueList → Nat → WriterState → Except Err WriterState
  | .nil, _, s => Except.ok s
  | .cons v rest, i, s =>
    match writeField v i s with
    | Except.error e => Except.error e
    | Except.ok s1 => writeFields rest (i + 1) s1
end

/-- The static root entry point
`ByteTreeWriter::write(ProtocolVersion, StreamWriter, Object)`: writes
the protocol version as a raw 4-byte integer (asserting the sink write
succeeded), sets the synthetic writer's `NumFields` directly to 1
without serializing it, writes the root object at index 0, and runs the
writer's destructor check as it goes out of scope. -/
def ByteTreeWriter.write (ProtocolVersion : Nat) (sw : StreamWriter)
    (Object : Value) : Except Err StreamWriter :=
  match sw.writeInteger 4 ProtocolVersion with
  | Except.error _ => Except.error Err.sink
  | Except.ok sw1 =>
    match writeField Object 0 ⟨⟨1, 0⟩, sw1⟩ with
    | Except.error e => Except.error e
    | Except.ok s2 =>
      match dtor s2.writer with
      | Except.error e => Except.error e
      | Except.ok _ => Except.ok s2.stream

/-- A generic wrapper conversion body, modelled as the sequence of
delegated `ByteTreeWriter::write` calls it performs: each entry is a
value and the index it is written at. `WrapperTypeTraits<bool>` is the
one-element sequence; a buggy wrapper delegates zero times or several
times. -/
def delegSeq : List (Value × Nat) → WriterState → Except Err WriterState
  | [], s => Except.ok s
  | (v, i) :: rest, s =>
    match writeField v i s with
    | Except.error e => Except.error e
    | Except.ok s1 => delegSeq rest s1

mutual
/-- The bytes the writer appends for one field of value `v`, read off
from the overloads: scalars are a 4-byte length followed by the trait
content, the bool wrapper reduces to the `uint8_t` scalar, and an
object is its own 4-byte field count followed by its fields' bytes,
with no further framing. -/
def enc : Value → List Nat
  | .u8 v => toLE 4 (ScalarTraits.sizeU8 v) ++ ScalarTraits.writeU8 v
  | .u16 v => toLE 4 (ScalarTraits.sizeU16 v) ++ ScalarTraits.writeU16 v
  | .u32v v => toLE 4 (ScalarTraits.sizeU32 v) ++ ScalarTraits.writeU32 v
  | .str t => toLE 4 (ScalarTraits.sizeString t) ++ ScalarTraits.writeString t
  | .noneV => toLE 4 ScalarTraits.sizeNone ++ ScalarTraits.writeNone
  | .boolV b => toLE 4 1 ++ toLE 1 (if b then 1 else 0)
  | .obj fs => toLE 4 (ObjectTraits.numFields fs) ++ encList fs
/-- Concatenation of the per-field byte sequences of an object's
fields. -/
def encList : ValueList → List Nat
  | .nil => []
  | .cons v rest => enc v ++ encList rest
end

mutual
/-- Values whose trait implementations satisfy the writer's structural
contract: strings short enough that the `unsigned` size matches the
bytes written, and objects whose field count is representable and
distinct from the `UINT_MAX` sentinel. -/
def wf : Value → Bool
  | .u8 _ => true
  | .u16 _ => true
  | .u32v _ => true
  | .str t => decide (t.length < 4294967296)
  | .noneV => true
  | .boolV _ => true
  | .obj fs => decide (fs.length < UINT_MAX) && wfList fs
/-- All fields of the list are well formed. -/
def wfList : ValueList → Bool
  | .nil => true
  | .cons v rest => wf v && wfList rest
end

/-- Whether a writer step succeeded. -/
def isOk {α : Type} : Except Err α → Bool
  | Except.ok _ => true
  | Except.error _ => false

/-- Classifies an error as a structural-contract violation, as opposed
to one caused by a failed sink write. -/
def Err.isStructural : Err → Bool
  | Err.sink => false
  | _ => true

/-- A successful sink write appends exactly the given bytes. -/
theorem writeBytes_ok {sw : StreamWriter} {bs : List Nat} {sw2 : StreamWriter}
    (h : sw.writeBytes bs = Except.ok sw2) :
    sw2 = { sw with bytes := sw.bytes ++ bs } := by
  unfold StreamWriter.writeBytes at h
  split at h
  · exact (Except.ok.injEq _ _).mp h.symm
  · split at h
    · exact (Except.ok.injEq _ _).mp h.symm
    · exact absurd h (by simp)

/-- On a sink with no capacity bound, writes always succeed. -/
theorem writeBytes_none {sw : StreamWriter} (bs : List Nat)
    (h : sw.cap = none) :
    sw.writeBytes bs = Except.ok { sw with bytes := sw.bytes ++ bs } := by
  unfold StreamWriter.writeBytes
  rw [h]

/-- Characterization of `validateAndIncreaseFieldIndex`: it accepts
exactly when the field count has been set, the index is the next
expected one and is below the field count, and then it only advances
the expected index. -/
theorem validate_ok_iff {Index : Nat} {w w2 : ByteTreeWriter} :
    validateAndIncreaseFieldIndex Index w = Except.ok w2 ↔
      (w.NumFields ≠ UINT_MAX ∧ Index = w.CurrentFieldIndex ∧
       Index < w.NumFields ∧
       w2 = { w with CurrentFieldIndex := w.CurrentFieldIndex + 1 }) := by
  unfold validateAndIncreaseFieldIndex
  split_ifs with h1 h2 h3 <;> simp_all
  exact eq_comm

/-- Inversion of a successful scalar field write: the index was the
expected one, the content length matched the declared size, and the
sink gained exactly the 4-byte length followed by the content. -/
theorem writeScalarWith_ok {size : Nat} {content : List Nat} {Index : Nat}
    {s s2 : WriterState}
    (h : writeScalarWith size content Index s = Except.ok s2) :
    Index = s.writer.CurrentFieldIndex ∧
    s.writer.NumFields ≠ UINT_MAX ∧ Index < s.writer.NumFields ∧
    content.length = asU32 size ∧
    s2.writer = { s.writer with CurrentFieldIndex := Index + 1 } ∧
    s2.stream.bytes = s.stream.bytes ++ toLE 4 (asU32 size) ++ content ∧
    s2.stream.cap = s.stream.cap := by
  unfold writeScalarWith at h
  split at h
  · exact absurd h (by simp)
  · rename_i w hw
    rw [validate_ok_iff] at hw
    obtain ⟨hnf, hidx, hlt, hweq⟩ := hw
    split at h
    · exact absurd h (by simp)
    · rename_i sw1 hsw1
      have hsw1b := writeBytes_ok hsw1
      split at h
      · exact absurd h (by simp)
      · rename_i sw2 hsw2
        have hsw2b := writeBytes_ok hsw2
        split at h
        · rename_i hcond
          have hs2 : s2 = ⟨w, sw2⟩ := ((Except.ok.injEq _ _).mp h).symm
          subst hs2 hsw2b hsw1b hweq hidx
          refine ⟨rfl, hnf, hlt, ?_, by simp, by simp, rfl⟩
          simp only [StreamWriter.getOffset, List.length_append] at hcond
          omega
        · exact absurd h (by simp)

/-- Forward evaluation of a scalar field write on an unbounded sink
when the trait is honest about its size. -/
theorem writeScalarWith_run (size : Nat) (content : List Nat) (Index : Nat)
    (w : ByteTreeWriter) (sw : StreamWriter)
    (hcap : sw.cap = none) (hnf : w.NumFields ≠ UINT_MAX)
    (hidx : Index = w.CurrentFieldIndex) (hlt : Index < w.NumFields)
    (hlen : content.length = asU32 size) :
    writeScalarWith size content Index ⟨w, sw⟩ =
      Except.ok ⟨{ w with CurrentFieldIndex := Index + 1 },
                 { sw with bytes := sw.bytes ++ toLE 4 (asU32 size) ++ content }⟩ := by
  subst hidx
  have hv : validateAndIncreaseFieldIndex w.CurrentFieldIndex w =
      Except.ok { w with CurrentFieldIndex := w.CurrentFieldIndex + 1 } :=
    validate_ok_iff.mpr ⟨hnf, rfl, hlt, rfl⟩
  have h1 : StreamWriter.writeInteger sw 4 (asU32 size) =
      Except.ok { sw with bytes := sw.bytes ++ toLE 4 (asU32 size) } := by
    unfold StreamWriter.writeInteger
    exact writeBytes_none _ hcap
  have h2 : StreamWriter.writeBytes
        { sw with bytes := sw.bytes ++ toLE 4 (asU32 size) } content =
      Except.ok { sw with
        bytes := sw.bytes ++ toLE 4 (asU32 size) ++ content } :=
    writeBytes_none content hcap
  unfold writeScalarWith
  rw [hv, h1]
  simp [h2, StreamWriter.getOffset]
  omega

/-- Every accepted field write was issued at the writer's expected
index and advances the expected index by exactly one. -/
theorem writeField_step {v : Value} {Index : Nat} {s s2 : WriterState}
    (h : writeField v Index s = Except.ok s2) :
    Index = s.writer.CurrentFieldIndex ∧
    s2.writer.CurrentFieldIndex = Index + 1 := by
  cases v with
  | u8 x =>
    obtain ⟨hidx, _, _, _, hw, _, _⟩ := writeScalarWith_ok h
    exact ⟨hidx, by rw [hw]⟩
  | u16 x =>
    obtain ⟨hidx, _, _, _, hw, _, _⟩ := writeScalarWith_ok h
    exact ⟨hidx, by rw [hw]⟩
  | u32v x =>
    obtain ⟨hidx, _, _, _, hw, _, _⟩ := writeScalarWith_ok h
    exact ⟨hidx, by rw [hw]⟩
  | str t =>
    obtain ⟨hidx, _, _, _, hw, _, _⟩ := writeScalarWith_ok h
    exact ⟨hidx, by rw [hw]⟩
  | noneV =>
    obtain ⟨hidx, _, _, _, hw, _, _⟩ := writeScalarWith_ok h
    exact ⟨hidx, by rw [hw]⟩
  | boolV b =>
    unfold writeField writeWrapperWith at h
    split at h
    · exact absurd h (by simp)
    · rename_i s1 hs1
      obtain ⟨hidx, _, _, _, hw, _, _⟩ := writeScalarWith_ok hs1
      split at h
      · rename_i hinc
        have hs2 : s1 = s2 := (Except.ok.injEq _ _).mp h
        subst hs2
        exact ⟨hidx, by rw [hw, hidx]⟩
      · exact absurd h (by simp)
  | obj fs =>
    unfold writeField at h
    split at h
    · exact absurd h (by simp)
    · rename_i w hw
      rw [validate_ok_iff] at hw
      obtain ⟨hnf, hidx, hlt, hweq⟩ := hw
      split at h
      · exact absurd h (by simp)
      · split at h
        · exact absurd h (by simp)
        · rename_i c2 hc2
          split at h
          · exact absurd h (by simp)
          · have hs2 : s2 = ⟨w, c2.stream⟩ := ((Except.ok.injEq _ _).mp h).symm
            subst hs2 hweq hidx
            exact ⟨rfl, rfl⟩

/-- A sequence of delegated writes that all succeed advances the
writer's expected index by exactly the number of calls. -/
theorem delegSeq_delta {calls : List (Value × Nat)} {s s2 : WriterState}
    (h : delegSeq calls s = Except.ok s2) :
    s2.writer.CurrentFieldIndex =
      s.writer.CurrentFieldIndex + calls.length := by
  induction calls generalizing s with
  | nil =>
    have hs : Except.ok (ε := Err) s = Except.ok s2 := by
      simpa [delegSeq] using h
    have hs2 : s = s2 := (Except.ok.injEq _ _).mp hs
    subst hs2
    simp
  | cons p rest ih =>
    obtain ⟨v, i⟩ := p
    unfold delegSeq at h
    split at h
    · exact absurd h (by simp)
    · rename_i s1 hs1
      obtain ⟨hidx, hinc⟩ := writeField_step hs1
      have := ih h
      simp only [List.length_cons]
      omega

mutual
/-- On an unbounded sink, writing a well-formed value at the expected
index succeeds, advances the index by one, and appends exactly the
value's encoding `enc v` to the sink. -/
theorem writeField_ok : ∀ (v : Value) (Index : Nat) (w : ByteTreeWriter)
    (sw : StreamWriter), wf v = true → sw.cap = none →
    w.NumFields ≠ UINT_MAX → Index = w.CurrentFieldIndex →
    Index < w.NumFields →
    writeField v Index ⟨w, sw⟩ =
      Except.ok ⟨{ w with CurrentFieldIndex := Index + 1 },
                 { sw with bytes := sw.bytes ++ enc v }⟩
  | Value.u8 x, Index, w, sw, hwf, hcap, hnf, hidx, hlt => by
    simp only [writeField]
    rw [writeScalarWith_run (ScalarTraits.sizeU8 x) (ScalarTraits.writeU8 x)
      Index w sw hcap hnf hidx hlt rfl]
    simp [enc, ScalarTraits.sizeU8, ScalarTraits.writeU8, asU32,
      List.append_assoc]
  | Value.u16 x, Index, w, sw, hwf, hcap, hnf, hidx, hlt => by
    simp only [writeField]
    rw [writeScalarWith_run (ScalarTraits.sizeU16 x) (ScalarTraits.writeU16 x)
      Index w sw hcap hnf hidx hlt rfl]
    simp [enc, ScalarTraits.sizeU16, ScalarTraits.writeU16, asU32,
      List.append_assoc]
  | Value.u32v x, Index, w, sw, hwf, hcap, hnf, hidx, hlt => by
    simp only [writeField]
    rw [writeScalarWith_run (ScalarTraits.sizeU32 x) (ScalarTraits.writeU32 x)
      Index w sw hcap hnf hidx hlt rfl]
    simp [enc, ScalarTraits.sizeU32, ScalarTraits.writeU32, asU32,
      List.append_assoc]
  | Value.str t, Index, w, sw, hwf, hcap, hnf, hidx, hlt => by
    have hlen : t.length < 4294967296 := by
      simpa [wf, decide_eq_true_eq] using hwf
    have hsz : ScalarTraits.sizeString t = t.length := by
      unfold ScalarTraits.sizeString asU32
      exact Nat.mod_eq_of_lt hlen
    simp only [writeField]
    rw [writeScalarWith_run (ScalarTraits.sizeString t)
      (ScalarTraits.writeString t) Index w sw hcap hnf hidx hlt
      (by
        unfold ScalarTraits.writeString
        rw [hsz]
        unfold asU32
        exact (Nat.mod_eq_of_lt hlen).symm)]
    simp [enc, ScalarTraits.writeString, hsz, asU32,
      Nat.mod_eq_of_lt hlen, List.append_assoc]
  | Value.noneV, Index, w, sw, hwf, hcap, hnf, hidx, hlt => by
    simp only [writeField]
    rw [writeScalarWith_run ScalarTraits.sizeNone ScalarTraits.writeNone
      Index w sw hcap hnf hidx hlt rfl]
    simp [enc, ScalarTraits.sizeNone, ScalarTraits.writeNone, asU32]
  | Value.boolV b, Index, w, sw, hwf, hcap, hnf, hidx, hlt => by
    simp only [writeField, writeWrapperWith]
    rw [writeScalarWith_run (ScalarTraits.sizeU8 (if b then 1 else 0))
      (ScalarTraits.writeU8 (if b then 1 else 0)) Index w sw
      hcap hnf hidx hlt rfl]
    simp [enc, ScalarTraits.sizeU8, ScalarTraits.writeU8, asU32, hidx,
      List.append_assoc]
  | Value.obj fs, Index, w, sw, hwf, hcap, hnf, hidx, hlt => by
    have hwf2 : fs.length < UINT_MAX ∧ wfList fs = true := by
      simpa [wf, Bool.and_eq_true, decide_eq_true_eq] using hwf
    have hn : ObjectTraits.numFields fs = fs.length := by
      unfold ObjectTraits.numFields asU32
      refine Nat.mod_eq_of_lt ?_
      have h1 := hwf2.1
      unfold UINT_MAX at h1
      omega
    have hnum : ObjectTraits.numFields fs ≠ UINT_MAX := by
      rw [hn]
      exact Nat.ne_of_lt hwf2.1
    have hset : setNumFields (ObjectTraits.numFields fs) ⟨{}, sw⟩ =
        Except.ok ⟨⟨ObjectTraits.numFields fs, 0⟩,
          { sw with bytes := sw.bytes ++ toLE 4 (ObjectTraits.numFields fs) }⟩ := by
      unfold setNumFields
      rw [if_neg hnum, if_neg (by simp)]
      rw [show StreamWriter.writeInteger sw 4 (ObjectTraits.numFields fs) =
            Except.ok { sw with
              bytes := sw.bytes ++ toLE 4 (ObjectTraits.numFields fs) } from by
          unfold StreamWriter.writeInteger
          exact writeBytes_none _ hcap]
    have hval : validateAndIncreaseFieldIndex Index w =
        Except.ok { w with CurrentFieldIndex := w.CurrentFieldIndex + 1 } :=
      validate_ok_iff.mpr ⟨hnf, hidx, hlt, rfl⟩
    have hfields : writeFields fs 0 ⟨⟨ObjectTraits.numFields fs, 0⟩,
          { sw with bytes := sw.bytes ++ toLE 4 (ObjectTraits.numFields fs) }⟩ =
        Except.ok ⟨⟨ObjectTraits.numFields fs, 0 + fs.length⟩,
          { sw with bytes :=
              sw.bytes ++ toLE 4 (ObjectTraits.numFields fs) ++ encList fs }⟩ :=
      writeFields_ok fs 0 ⟨ObjectTraits.numFields fs, 0⟩
        { sw with bytes := sw.bytes ++ toLE 4 (ObjectTraits.numFields fs) }
        hwf2.2 hcap hnum rfl
        (by
          show 0 + ValueList.length fs ≤ ObjectTraits.numFields fs
          rw [hn]
          omega)
    have hd : dtor ⟨ObjectTraits.numFields fs, 0 + fs.length⟩ =
        Except.ok () := by
      unfold dtor
      rw [if_pos (by
        show 0 + ValueList.length fs = ObjectTraits.numFields fs
        rw [hn]
        omega)]
    simp only [writeField, hval, hset, hfields, hd]
    simp [enc, List.append_assoc, hidx]
/-- On an unbounded sink, writing a list of well-formed fields at
consecutive expected indices succeeds, advances the index by the list
length, and appends the concatenation of the fields' encodings. -/
theorem writeFields_ok : ∀ (fs : ValueList) (i : Nat) (w : ByteTreeWriter)
    (sw : StreamWriter), wfList fs = true → sw.cap = none →
    w.NumFields ≠ UINT_MAX → i = w.CurrentFieldIndex →
    i + fs.length ≤ w.NumFields →
    writeFields fs i ⟨w, sw⟩ =
      Except.ok ⟨{ w with CurrentFieldIndex := i + fs.length },
                 { sw with bytes := sw.bytes ++ encList fs }⟩
  | ValueList.nil, i, w, sw, hwf, hcap, hnf, hidx, hle => by
    subst hidx
    simp [writeFields, encList, ValueList.length]
  | ValueList.cons v rest, i, w, sw, hwf, hcap, hnf, hidx, hle => by
    have hwf2 : wf v = true ∧ wfList rest = true := by
      simpa [wfList, Bool.and_eq_true] using hwf
    have hlen : ValueList.length (ValueList.cons v rest) =
        rest.length + 1 := rfl
    have hlt : i < w.NumFields := by
      rw [hlen] at hle
      omega
    simp only [writeFields,
      writeField_ok v i w sw hwf2.1 hcap hnf hidx hlt,
      writeFields_ok rest (i + 1) { w with CurrentFieldIndex := i + 1 }
        { sw with bytes := sw.bytes ++ enc v } hwf2.2 hcap hnf rfl
        (by
          show i + 1 + ValueList.length rest ≤ w.NumFields
          rw [hlen] at hle
          omega)]
    simp only [encList, hlen, List.append_assoc]
    refine congrArg Except.ok ?_
    refine congrArg₂ WriterState.mk ?_ rfl
    show ByteTreeWriter.mk w.NumFields (i + 1 + ValueList.length rest) =
      ByteTreeWriter.mk w.NumFields (i + (ValueList.length rest + 1))
    refine congrArg (ByteTreeWriter.mk w.NumFields) ?_
    omega
end

/-- The index validation itself never produces a sink-caused error. -/
theorem validate_error_ne_sink {Index : Nat} {w : ByteTreeWriter} {e : Err}
    (h : validateAndIncreaseFieldIndex Index w = Except.error e) :
    e ≠ Err.sink := by
  unfold validateAndIncreaseFieldIndex at h
  split_ifs at h <;>
    (obtain rfl := (Except.error.injEq _ _).mp h
     decide)

/-- On an unbounded sink, `setNumFields` either succeeds (keeping the
sink unbounded) or fails with a structural error, never a sink error. -/
theorem setNumFields_noSink (n : Nat) (s : WriterState)
    (hcap : s.stream.cap = none) :
    (∃ s2, setNumFields n s = Except.ok s2 ∧ s2.stream.cap = none) ∨
    (∃ e, setNumFields n s = Except.error e ∧ e ≠ Err.sink) := by
  have h1 : StreamWriter.writeInteger s.stream 4 n =
      Except.ok { s.stream with bytes := s.stream.bytes ++ toLE 4 n } := by
    unfold StreamWriter.writeInteger
    exact writeBytes_none _ hcap
  unfold setNumFields
  rw [h1]
  split_ifs
  · exact Or.inr ⟨Err.numFieldsIsSentinel, rfl, by simp⟩
  · exact Or.inr ⟨Err.numFieldsAlreadySet, rfl, by simp⟩
  · exact Or.inl ⟨_, rfl, hcap⟩

/-- On an unbounded sink, the generic scalar overload either succeeds
(keeping the sink unbounded) or fails with a structural error, never a
sink error. -/
theorem writeScalarWith_noSink (size : Nat) (content : List Nat)
    (Index : Nat) (s : WriterState) (hcap : s.stream.cap = none) :
    (∃ s2, writeScalarWith size content Index s = Except.ok s2 ∧
      s2.stream.cap = none) ∨
    (∃ e, writeScalarWith size content Index s = Except.error e ∧
      e ≠ Err.sink) := by
  unfold writeScalarWith
  cases hv : validateAndIncreaseFieldIndex Index s.writer with
  | error e =>
    exact Or.inr ⟨e, rfl, validate_error_ne_sink hv⟩
  | ok w =>
    have h1 : StreamWriter.writeInteger s.stream 4 (asU32 size) =
        Except.ok { s.stream with
          bytes := s.stream.bytes ++ toLE 4 (asU32 size) } := by
      unfold StreamWriter.writeInteger
      exact writeBytes_none _ hcap
    have h2 : StreamWriter.writeBytes
          { s.stream with bytes := s.stream.bytes ++ toLE 4 (asU32 size) }
          content =
        Except.ok { s.stream with
          bytes := s.stream.bytes ++ toLE 4 (asU32 size) ++ content } :=
      writeBytes_none content hcap
    rw [h1]
    simp only [h2]
    split
    · exact Or.inl ⟨_, rfl, hcap⟩
    · exact Or.inr ⟨Err.scalarSizeMismatch, rfl, by simp⟩

mutual
/-- On an unbounded sink, a field write either succeeds (keeping the
sink unbounded) or fails with a structural-contract error; the sink
error is unreachable. -/
theorem writeField_noSink : ∀ (v : Value) (Index : Nat) (s : WriterState),
    s.stream.cap = none →
    (∃ s2, writeField v Index s = Except.ok s2 ∧ s2.stream.cap = none) ∨
    (∃ e, writeField v Index s = Except.error e ∧ e ≠ Err.sink)
  | Value.u8 x, Index, s, hcap => by
    simp only [writeField]
    exact writeScalarWith_noSink _ _ _ _ hcap
  | Value.u16 x, Index, s, hcap => by
    simp only [writeField]
    exact writeScalarWith_noSink _ _ _ _ hcap
  | Value.u32v x, Index, s, hcap => by
    simp only [writeField]
    exact writeScalarWith_noSink _ _ _ _ hcap
  | Value.str t, Index, s, hcap => by
    simp only [writeField]
    exact writeScalarWith_noSink _ _ _ _ hcap
  | Value.noneV, Index, s, hcap => by
    simp only [writeField]
    exact writeScalarWith_noSink _ _ _ _ hcap
  | Value.boolV b, Index, s, hcap => by
    simp only [writeField, writeWrapperWith]
    rcases writeScalarWith_noSink (ScalarTraits.sizeU8 (if b then 1 else 0))
        (ScalarTraits.writeU8 (if b then 1 else 0)) Index s hcap with
      ⟨s1, h1, hc1⟩ | ⟨e, h1, he⟩
    · simp only [h1]
      split
      · exact Or.inl ⟨s1, rfl, hc1⟩
      · exact Or.inr ⟨Err.wrapperDidNotWriteOnce, rfl, by simp⟩
    · simp only [h1]
      exact Or.inr ⟨e, rfl, he⟩
  | Value.obj fs, Index, s, hcap => by
    simp only [writeField]
    cases hv : validateAndIncreaseFieldIndex Index s.writer with
    | error e =>
      exact Or.inr ⟨e, rfl, validate_error_ne_sink hv⟩
    | ok w =>
      rcases setNumFields_noSink (ObjectTraits.numFields fs)
          ⟨{}, s.stream⟩ hcap with ⟨c1, h1, hc1⟩ | ⟨e, h1, he⟩
      · simp only [h1]
        rcases writeFields_noSink fs 0 c1 hc1 with
          ⟨c2, h2, hc2⟩ | ⟨e, h2, he⟩
        · simp only [h2]
          unfold dtor
          split_ifs
          · exact Or.inl ⟨_, rfl, hc2⟩
          · exact Or.inr ⟨Err.objectFieldCountMismatch, rfl, by simp⟩
        · simp only [h2]
          exact Or.inr ⟨e, rfl, he⟩
      · simp only [h1]
        exact Or.inr ⟨e, rfl, he⟩
/-- On an unbounded sink, writing a list of fields either succeeds
(keeping the sink unbounded) or fails with a structural-contract
error; the sink error is unreachable. -/
theorem writeFields_noSink : ∀ (fs : ValueList) (i : Nat) (s : WriterState),
    s.stream.cap = none →
    (∃ s2, writeFields fs i s = Except.ok s2 ∧ s2.stream.cap = none) ∨
    (∃ e, writeFields fs i s = Except.error e ∧ e ≠ Err.sink)
  | ValueList.nil, i, s, hcap => by
    simp only [writeFields]
    exact Or.inl ⟨s, rfl, hcap⟩
  | ValueList.cons v rest, i, s, hcap => by
    simp only [writeFields]
    rcases writeField_noSink v i s hcap with ⟨s1, h1, hc1⟩ | ⟨e, h1, he⟩
    · simp only [h1]
      exact writeFields_noSink rest (i + 1) s1 hc1
    · simp only [h1]
      exact Or.inr ⟨e, rfl, he⟩
end

/-- C1: Emitting version 1 with a root object of two fields,
x = uint32(1) and y = uint32(2), via the static `ByteTreeWriter::write`
entry point produces exactly the byte sequence
01 00 00 00 (version), 02 00 00 00 (field count),
04 00 00 00 01 00 00 00 (field 0: length 4, value 1),
04 00 00 00 02 00 00 00 (field 1: length 4, value 2). -/
theorem claimC1_scenarioA :
    ByteTreeWriter.write 1 ⟨[], none⟩
      (Value.obj (ValueList.cons (Value.u32v 1)
        (ValueList.cons (Value.u32v 2) ValueList.nil))) =
    Except.ok ⟨[1, 0, 0, 0,
                2, 0, 0, 0,
                4, 0, 0, 0, 1, 0, 0, 0,
                4, 0, 0, 0, 2, 0, 0, 0], none⟩ := by
  rfl

/-- C2: When the underlying sink's write primitive fails during the
scalar-encoding step, the failure is surfaced as an explicit error
result of the scalar write and the emission is abandoned (the writer
step returns the sink-caused error, and the monadic short-circuit
abandons the rest of the stream); and this is the sole
runtime-recoverable error path: on a sink that never fails, no writer
step ever reports a sink-caused error — every other failure is a
structural-contract check. -/
theorem claimC2_sinkErrorPath :
    (∀ (size : Nat) (content : List Nat) (Index : Nat) (s : WriterState)
        (w : ByteTreeWriter) (sw : StreamWriter),
      validateAndIncreaseFieldIndex Index s.writer = Except.ok w →
      s.stream.writeInteger 4 (asU32 size) = Except.ok sw →
      sw.writeBytes content = Except.error () →
      writeScalarWith size content Index s = Except.error Err.sink) ∧
    (∀ (v : Value) (Index : Nat) (s : WriterState), s.stream.cap = none →
      writeField v Index s ≠ Except.error Err.sink) := by
  constructor
  · intro size content Index s w sw hval hint hbytes
    unfold writeScalarWith
    simp only [hval, hint, hbytes]
  · intro v Index s hcap
    rcases writeField_noSink v Index s hcap with ⟨s2, h2, _⟩ | ⟨e, h2, he⟩
    · rw [h2]
      simp
    · rw [h2]
      intro hx
      exact he ((Except.error.injEq _ _).mp hx)

/-- C2 witness: a concrete sink with capacity 4 accepts the 4-byte
length but fails on the 4-byte content, and the scalar write reports
the sink error. -/
theorem claimC2_witness :
    writeScalarWith 4 [1, 0, 0, 0] 0 ⟨⟨1, 0⟩, ⟨[], some 4⟩⟩ =
      Except.error Err.sink :=
  claimC2_sinkErrorPath.1 4 [1, 0, 0, 0] 0 ⟨⟨1, 0⟩, ⟨[], some 4⟩⟩
    ⟨1, 1⟩ ⟨[4, 0, 0, 0], some 4⟩ rfl rfl rfl

/-- C3: A field write is accepted exactly when the field count has been
set (is not the sentinel), the index equals the writer's next expected
index, and the index is below the declared count — in which case the
expected index advances by one; any other index is rejected with a
structural (fatal) error. -/
theorem claimC3_fieldIndexValidation :
    ∀ (Index : Nat) (w : ByteTreeWriter),
    (validateAndIncreaseFieldIndex Index w =
        Except.ok { w with CurrentFieldIndex := Index + 1 } ↔
      (w.NumFields ≠ UINT_MAX ∧ Index = w.CurrentFieldIndex ∧
       Index < w.NumFields)) ∧
    (¬ (w.NumFields ≠ UINT_MAX ∧ Index = w.CurrentFieldIndex ∧
        Index < w.NumFields) →
      ∃ e, validateAndIncreaseFieldIndex Index w = Except.error e ∧
        Err.isStructural e = true) := by
  intro Index w
  constructor
  · constructor
    · intro h
      obtain ⟨hnf, hidx, hlt, _⟩ := validate_ok_iff.mp h
      exact ⟨hnf, hidx, hlt⟩
    · intro hc
      obtain ⟨hnf, hidx, hlt⟩ := hc
      exact validate_ok_iff.mpr ⟨hnf, hidx, hlt, by rw [hidx]⟩
  · intro hneg
    unfold validateAndIncreaseFieldIndex
    by_cases h1 : w.NumFields = UINT_MAX
    · exact ⟨Err.numFieldsNotSet, by rw [if_pos h1], rfl⟩
    · by_cases h2 : Index = w.CurrentFieldIndex
      · by_cases h3 : Index < w.NumFields
        · exact absurd ⟨h1, h2, h3⟩ hneg
        · exact ⟨Err.tooManyFields, by
            rw [if_neg h1, if_neg (not_ne_iff.mpr h2), if_pos h3], rfl⟩
      · exact ⟨Err.indexOutOfOrder, by rw [if_neg h1, if_pos h2], rfl⟩

/-- C3 witness: writing index 1 first (writer expects index 0 of 2
declared fields) is rejected with a structural error. -/
theorem claimC3_witness :
    ∃ e, validateAndIncreaseFieldIndex 1 ⟨2, 0⟩ = Except.error e ∧
      Err.isStructural e = true :=
  (claimC3_fieldIndexValidation 1 ⟨2, 0⟩).2 (by decide)

/-- C4: The destructor check accepts a discarded writer exactly when
the number of fields written equals the declared count, and rejects any
other writer with the fatal count-mismatch error; the written-field
counter is exactly the writer's expected index, which every accepted
field write advances by one. -/
theorem claimC4_discardCheck :
    ∀ (w : ByteTreeWriter),
    (dtor w = Except.ok () ↔ w.CurrentFieldIndex = w.NumFields) ∧
    (w.CurrentFieldIndex ≠ w.NumFields →
      dtor w = Except.error Err.objectFieldCountMismatch) ∧
    (∀ (v : Value) (Index : Nat) (s s2 : WriterState),
      writeField v Index s = Except.ok s2 →
      s2.writer.CurrentFieldIndex = s.writer.CurrentFieldIndex + 1) := by
  intro w
  refine ⟨?_, ?_, ?_⟩
  · unfold dtor
    split_ifs with h <;> simp [h]
  · intro h
    unfold dtor
    rw [if_neg h]
  · intro v Index s s2 h
    obtain ⟨hidx, hinc⟩ := writeField_step h
    rw [hinc, hidx]

/-- C4 witness: a writer that declared 3 fields but wrote only 1 is
rejected on discard. -/
theorem claimC4_witness :
    dtor ⟨3, 1⟩ = Except.error Err.objectFieldCountMismatch :=
  (claimC4_discardCheck ⟨3, 1⟩).2.1 (by decide)

/-- C5: For every accepted scalar field write, the emitted 4-byte
Length equals the number of content bytes that immediately follow it on
the sink; and a trait whose content length differs from its declared
size is rejected with the fatal size-mismatch error. -/
theorem claimC5_scalarLengthMatchesBytes :
    ∀ (size : Nat) (content : List Nat) (Index : Nat) (s : WriterState),
    (∀ s2, writeScalarWith size content Index s = Except.ok s2 →
      content.length = asU32 size ∧
      s2.stream.bytes =
        s.stream.bytes ++ toLE 4 (asU32 size) ++ content) ∧
    (∀ w, s.stream.cap = none →
      validateAndIncreaseFieldIndex Index s.writer = Except.ok w →
      content.length ≠ asU32 size →
      writeScalarWith size content Index s =
        Except.error Err.scalarSizeMismatch) := by
  intro size content Index s
  constructor
  · intro s2 h
    obtain ⟨_, _, _, hlen, _, hbytes, _⟩ := writeScalarWith_ok h
    exact ⟨hlen, hbytes⟩
  · intro w hcap hval hne
    have h1 : StreamWriter.writeInteger s.stream 4 (asU32 size) =
        Except.ok { s.stream with
          bytes := s.stream.bytes ++ toLE 4 (asU32 size) } := by
      unfold StreamWriter.writeInteger
      exact writeBytes_none _ hcap
    have h2 : StreamWriter.writeBytes
          { s.stream with bytes := s.stream.bytes ++ toLE 4 (asU32 size) }
          content =
        Except.ok { s.stream with
          bytes := s.stream.bytes ++ toLE 4 (asU32 size) ++ content } :=
      writeBytes_none content hcap
    unfold writeScalarWith
    simp only [hval, h1, h2]
    rw [if_neg (by
      simp only [StreamWriter.getOffset, List.length_append]
      omega)]

/-- C5 witness: a trait that declares size 1 but writes 2 bytes is
rejected with the size-mismatch error. -/
theorem claimC5_witness :
    writeScalarWith 1 [0, 0] 0 ⟨⟨1, 0⟩, ⟨[], none⟩⟩ =
      Except.error Err.scalarSizeMismatch :=
  (claimC5_scalarLengthMatchesBytes 1 [0, 0] 0 ⟨⟨1, 0⟩, ⟨[], none⟩⟩).2
    ⟨1, 1⟩ rfl rfl (by decide)

/-- C6: A wrapper conversion is accepted exactly when it delegates one
write call back into the writer, necessarily at the writer's expected
index (the field index must advance by exactly one across the wrapper
call); a conversion consisting of zero delegated calls, or of two or
more, is never accepted. -/
theorem claimC6_wrapperExactlyOnce :
    ∀ (calls : List (Value × Nat)) (Index : Nat) (s : WriterState),
    (∀ s2, writeWrapperWith (fun _ t => delegSeq calls t) Index s =
        Except.ok s2 →
      s2.writer.CurrentFieldIndex = s.writer.CurrentFieldIndex + 1 ∧
      ∃ v, calls = [(v, s.writer.CurrentFieldIndex)]) ∧
    (calls.length ≠ 1 →
      isOk (writeWrapperWith (fun _ t => delegSeq calls t) Index s) =
        false) := by
  intro calls Index s
  have hkey : ∀ s2,
      writeWrapperWith (fun _ t => delegSeq calls t) Index s =
        Except.ok s2 →
      delegSeq calls s = Except.ok s2 ∧
      s2.writer.CurrentFieldIndex = s.writer.CurrentFieldIndex + 1 := by
    intro s2 h
    simp only [writeWrapperWith] at h
    split at h
    · exact absurd h (by simp)
    · rename_i s1 h1
      split at h
      · rename_i hinc
        have hs : s1 = s2 := (Except.ok.injEq _ _).mp h
        subst hs
        exact ⟨h1, hinc⟩
      · exact absurd h (by simp)
  constructor
  · intro s2 h
    obtain ⟨hds, hinc⟩ := hkey s2 h
    refine ⟨hinc, ?_⟩
    have hdelta := delegSeq_delta hds
    have hlen1 : calls.length = 1 := by omega
    cases calls with
    | nil => exact absurd hlen1 (by simp)
    | cons p rest =>
      cases rest with
      | cons q rest2 => exact absurd hlen1 (by simp)
      | nil =>
        obtain ⟨v, i⟩ := p
        refine ⟨v, ?_⟩
        unfold delegSeq at hds
        split at hds
        · exact absurd hds (by simp)
        · rename_i s1 h1
          obtain ⟨hi, _⟩ := writeField_step h1
          rw [hi]
  · intro hne
    cases hres : writeWrapperWith (fun _ t => delegSeq calls t) Index s with
    | error e => simp [isOk]
    | ok s2 =>
      obtain ⟨hds, hinc⟩ := hkey s2 hres
      have hdelta := delegSeq_delta hds
      exfalso
      omega

/-- C6 witness: a wrapper conversion that never delegates is not
accepted. -/
theorem claimC6_witness :
    isOk (writeWrapperWith (fun _ t => delegSeq [] t) 0
      ⟨⟨1, 0⟩, ⟨[], none⟩⟩) = false :=
  (claimC6_wrapperExactlyOnce [] 0 ⟨⟨1, 0⟩, ⟨[], none⟩⟩).2 (by decide)

/-- C7: The static root entry point writes the protocol version as a
raw 4-byte integer directly to the sink — no length prefix and no
field-count bytes for it — and everything that follows is exactly the
root object's own framing: its own 4-byte field count and then its
fields' bytes; the synthetic writer's field count of 1 never appears in
the stream. -/
theorem claimC7_rootEmission :
    ∀ (ProtocolVersion : Nat) (sw : StreamWriter) (fs : ValueList),
    sw.cap = none → wf (Value.obj fs) = true →
    ByteTreeWriter.write ProtocolVersion sw (Value.obj fs) =
      Except.ok { sw with bytes :=
        (sw.bytes ++ toLE 4 ProtocolVersion ++ toLE 4 fs.length ++
          encList fs) } := by
  intro PV sw fs hcap hwf
  have hwf2 : fs.length < UINT_MAX ∧ wfList fs = true := by
    simpa [wf, Bool.and_eq_true, decide_eq_true_eq] using hwf
  have hm : asU32 fs.length = fs.length := by
    unfold asU32
    refine Nat.mod_eq_of_lt ?_
    have h1 := hwf2.1
    unfold UINT_MAX at h1
    omega
  have h1 : StreamWriter.writeInteger sw 4 PV =
      Except.ok { sw with bytes := sw.bytes ++ toLE 4 PV } := by
    unfold StreamWriter.writeInteger
    exact writeBytes_none _ hcap
  have h2 := writeField_ok (Value.obj fs) 0 ⟨1, 0⟩
      { sw with bytes := sw.bytes ++ toLE 4 PV } hwf hcap
      (by decide) rfl (by decide)
  unfold ByteTreeWriter.write
  simp only [h1, h2]
  have hd : dtor ⟨1, 0 + 1⟩ = Except.ok () := rfl
  simp only [hd]
  simp [enc, ObjectTraits.numFields, hm, List.append_assoc]

/-- C7 witness: version 1 with a one-field root object (uint8 7)
produces the version bytes, the root's field count, and the field. -/
theorem claimC7_witness :
    ByteTreeWriter.write 1 ⟨[], none⟩
      (Value.obj (ValueList.cons (Value.u8 7) ValueList.nil)) =
    Except.ok ⟨[1, 0, 0, 0, 1, 0, 0, 0, 1, 0, 0, 0, 7], none⟩ := by
  rw [claimC7_rootEmission 1 ⟨[], none⟩
    (ValueList.cons (Value.u8 7) ValueList.nil) rfl (by decide)]
  rfl

/-- C8 counterexample: the claim's byte listing for scenario C — root
field count 01 00 00 00, nested field count 01 00 00 00, then a nested
field length written as the single byte 01 followed by the value byte
07 — does not match the code: the writer emits every scalar Length as a
4-byte little-endian integer, so the emission of the root object (one
field, itself an object with one uint8(7) field) yields
01 00 00 00 | 01 00 00 00 | 01 00 00 00 | 07, not
01 00 00 00 | 01 00 00 00 | 01 | 07. -/
theorem claimC8_counterexample :
    writeField
        (Value.obj (ValueList.cons
          (Value.obj (ValueList.cons (Value.u8 7) ValueList.nil))
          ValueList.nil))
        0 ⟨⟨1, 0⟩, ⟨[], none⟩⟩ =
      Except.ok ⟨⟨1, 1⟩,
        ⟨[1, 0, 0, 0, 1, 0, 0, 0, 1, 0, 0, 0, 7], none⟩⟩ ∧
    [1, 0, 0, 0, 1, 0, 0, 0, 1, 0, 0, 0, 7] ≠
      [1, 0, 0, 0, 1, 0, 0, 0, 1, 7] := by
  exact ⟨rfl, by decide⟩

/-- C8 (amended): emitting a root object with one field that is itself
a nested object with one scalar field uint8(7) produces the root field
count 01 00 00 00, the nested object field count 01 00 00 00, the
nested field length as the 4-byte sequence 01 00 00 00, and the value
byte 07, with no outer length prefix around the nested object — nested
objects contribute no framing beyond their own field-count prefix. -/
theorem claimC8_nestedObjectBytes :
    writeField
        (Value.obj (ValueList.cons
          (Value.obj (ValueList.cons (Value.u8 7) ValueList.nil))
          ValueList.nil))
        0 ⟨⟨1, 0⟩, ⟨[], none⟩⟩ =
      Except.ok ⟨⟨1, 1⟩,
        ⟨[1, 0, 0, 0] ++ [1, 0, 0, 0] ++ [1, 0, 0, 0] ++ [7], none⟩⟩ := by
  rfl

/-- C9: Serializing an empty `llvm::StringRef` as a scalar field takes
the very same writer step as serializing `llvm::NoneType` at the same
position — both emit a 4-byte zero Length and no content bytes — so the
emitted stream cannot distinguish an empty string field from an
absent-optional field. -/
theorem claimC9_emptyStringAbsentMarker :
    (∀ (Index : Nat) (s : WriterState),
      writeField (Value.str []) Index s = writeField Value.noneV Index s) ∧
    writeField Value.noneV 0 ⟨⟨1, 0⟩, ⟨[], none⟩⟩ =
      Except.ok ⟨⟨1, 1⟩, ⟨[0, 0, 0, 0], none⟩⟩ :=
  ⟨fun _ _ => rfl, rfl⟩

/-- C10: Declaring exactly UINT_MAX = 2^32 - 1 fields is rejected by
`setNumFields` because that value is the reserved unset sentinel; every
accepted declaration stores a count different from the sentinel; and an
object whose trait reports UINT_MAX fields can never be written. -/
theorem claimC10_sentinelFieldCount :
    ∀ (n : Nat) (s : WriterState),
    (n = UINT_MAX →
      setNumFields n s = Except.error Err.numFieldsIsSentinel) ∧
    (∀ s2, setNumFields n s = Except.ok s2 →
      s2.writer.NumFields = n ∧ n ≠ UINT_MAX) ∧
    (∀ (fs : ValueList) (Index : Nat) (t : WriterState)
        (w : ByteTreeWriter),
      ObjectTraits.numFields fs = UINT_MAX →
      validateAndIncreaseFieldIndex Index t.writer = Except.ok w →
      writeField (Value.obj fs) Index t =
        Except.error Err.numFieldsIsSentinel) := by
  intro n s
  refine ⟨?_, ?_, ?_⟩
  · intro h
    unfold setNumFields
    rw [if_pos h]
  · intro s2 h
    unfold setNumFields at h
    by_cases h1 : n = UINT_MAX
    · rw [if_pos h1] at h
      exact absurd h (by simp)
    · rw [if_neg h1] at h
      by_cases h2 : s.writer.NumFields ≠ UINT_MAX
      · rw [if_pos h2] at h
        exact absurd h (by simp)
      · rw [if_neg h2] at h
        cases hsw : s.stream.writeInteger 4 n with
        | error e =>
          rw [hsw] at h
          exact absurd h (by simp)
        | ok sw =>
          rw [hsw] at h
          have hs : _ = s2 := (Except.ok.injEq _ _).mp h
          subst hs
          exact ⟨rfl, h1⟩
  · intro fs Index t w hfs hval
    have hs : setNumFields (ObjectTraits.numFields fs) ⟨{}, t.stream⟩ =
        Except.error Err.numFieldsIsSentinel := by
      unfold setNumFields
      rw [if_pos hfs]
    simp only [writeField, hval, hs]

/-- C10 witness: declaring UINT_MAX fields on a fresh writer is
rejected with the sentinel error. -/
theorem claimC10_witness :
    setNumFields UINT_MAX ⟨⟨UINT_MAX, 0⟩, ⟨[], none⟩⟩ =
      Except.error Err.numFieldsIsSentinel :=
  (claimC10_sentinelFieldCount UINT_MAX ⟨⟨UINT_MAX, 0⟩, ⟨[], none⟩⟩).1 rfl

end ByteTree
